import Mathlib

/-!
Verification of the entity-relationship graph assembly and aggregation logic
of the corporate-transparency-analysis frontend.

The embedded code:
* `NetworkGraph.graphData` (src/src/components/NetworkGraph.tsx, lines 30-92):
  builds a node map keyed by entity name (first occurrence wins), maps
  relationships to links, and synthesizes "unknown" placeholder nodes for
  link endpoints absent from the node map.
* `EntityTypeChart` (src/src/components/EntityTypeChart.tsx, lines 54-100):
  counts entities by type, relationships by type, entities by source,
  coalescing empty discriminators to "unknown", and sorts each grouping by
  descending count with a stable sort (JavaScript Array.prototype.sort is
  stable; Map iteration is in insertion order).
* The `POST` handler of src/src/app/api/analyze/route.ts: input validation,
  subprocess invocation, output-artifact extraction and response shaping.

JavaScript `Map` is modelled as an association list in insertion order:
`Map.set` on a fresh key appends, on an existing key updates in place;
`Map.has`/`Map.get` search by key; `Array.from(map.values())` yields the
values in insertion order.
-/

/-- An entity as consumed by the frontend components
(interface `Entity` in NetworkGraph.tsx / EntityTypeChart.tsx). -/
structure Entity where
  type : String
  name : String
  source : String
deriving Repr, DecidableEq

/-- A relationship as consumed by the frontend components
(interface `Relationship`): a directed, typed edge identified by endpoint
names. -/
structure Relationship where
  «from» : String
  «to» : String
  type : String
deriving Repr, DecidableEq

/-- A node of the force-graph data, as stored in `nodesMap` in
`NetworkGraph.graphData`. -/
structure Node where
  id : String
  name : String
  type : String
  source : String
  group : Nat
deriving Repr, DecidableEq

/-- A link of the force-graph data (`relationships.map` in
`NetworkGraph.graphData`). -/
structure Link where
  source : String
  target : String
  type : String
deriving Repr, DecidableEq

/-- The value returned by the `graphData` memo in NetworkGraph.tsx. -/
structure GraphData where
  nodes : List Node
  links : List Link
deriving Repr, DecidableEq

/-- The group number computed from an entity's type in
`NetworkGraph.graphData` (lines 39-47): 1 for "company", 2 for "officer",
3 otherwise. -/
def groupOf (t : String) : Nat :=
  if t = "company" then 1 else if t = "officer" then 2 else 3

/-- The node stored for an entity on first occurrence of its name
(`nodesMap.set(entity.name, {...})`, lines 49-55). -/
def mkNode (e : Entity) : Node :=
  { id := e.name, name := e.name, type := e.type, source := e.source,
    group := groupOf e.type }

/-- Membership of a name among a node list's ids, as tested by
`nodesMap.has`. -/
def hasId (m : List Node) (s : String) : Bool :=
  m.any (fun n => n.id = s)

/-- One step of the `entities.forEach` loop (lines 37-57): insert the
entity's node only if no node with that name is present yet. -/
def insertEntity (m : List Node) (e : Entity) : List Node :=
  if hasId m e.name then m else m ++ [mkNode e]

/-- The link built from a relationship (`relationships.map`, lines 60-64). -/
def mkLink (r : Relationship) : Link :=
  { source := r.«from», target := r.«to», type := r.type }

/-- The placeholder node synthesized for a link endpoint that has no node
(lines 69-75 and 78-84): type "unknown", source "unknown", group 0. -/
def placeholderNode (s : String) : Node :=
  { id := s, name := s, type := "unknown", source := "unknown", group := 0 }

/-- Insert a placeholder node for an endpoint name if absent
(`if (!nodesMap.has(...)) nodesMap.set(...)`). -/
def insertEndpoint (m : List Node) (s : String) : List Node :=
  if hasId m s then m else m ++ [placeholderNode s]

/-- One step of the `links.forEach` loop (lines 67-86): ensure both
endpoints of the link are present as nodes. -/
def insertLinkNodes (m : List Node) (l : Link) : List Node :=
  insertEndpoint (insertEndpoint m l.source) l.target

/-- The `graphData` computation of `NetworkGraph` (lines 30-92): entities
are folded into the node map in order, relationships are mapped to links,
and missing link endpoints are appended as placeholder nodes. -/
def graphData (entities : List Entity) (relationships : List Relationship) :
    GraphData :=
  let m0 := entities.foldl insertEntity []
  let links := relationships.map mkLink
  { nodes := links.foldl insertLinkNodes m0, links := links }

theorem hasId_iff (m : List Node) (s : String) :
    hasId m s = true ↔ ∃ n ∈ m, n.id = s := by
  unfold hasId
  simp [List.any_eq_true]

/-- Lookup of the node stored under a name key, as `nodesMap.get` would
return it. -/
def findNode (m : List Node) (s : String) : Option Node :=
  m.find? (fun n => n.id = s)

theorem hasId_eq_isSome_findNode (m : List Node) (s : String) :
    hasId m s = (findNode m s).isSome := by
  unfold hasId findNode
  induction m with
  | nil => rfl
  | cons n m ih =>
    by_cases h : n.id = s
    · simp [List.any_cons, List.find?_cons, h]
    · simp [List.any_cons, List.find?_cons, h, ih]

theorem findNode_append (m m' : List Node) (s : String) :
    findNode (m ++ m') s = (findNode m s).orElse (fun _ => findNode m' s) := by
  unfold findNode
  rw [List.find?_append]
  cases m.find? (fun n => n.id = s) <;> rfl

theorem findNode_singleton_same (n : Node) : findNode [n] n.id = some n := by
  unfold findNode
  simp [List.find?_cons]

theorem findNode_singleton_other (n : Node) (s : String) (h : ¬n.id = s) :
    findNode [n] s = none := by
  unfold findNode
  simp [List.find?_cons, h]

theorem findNode_insertEntity (m : List Node) (e : Entity) (s : String) :
    findNode (insertEntity m e) s =
      if e.name = s then (findNode m s).orElse (fun _ => some (mkNode e))
      else findNode m s := by
  unfold insertEntity
  by_cases h : hasId m e.name
  · rw [if_pos h]
    by_cases h' : e.name = s
    · subst h'
      rw [if_pos (show e.name = e.name from rfl)]
      have hs2 : (findNode m e.name).isSome = true := by
        rw [← hasId_eq_isSome_findNode]; exact h
      cases hf : findNode m e.name with
      | none => rw [hf] at hs2; simp at hs2
      | some n => rfl
    · rw [if_neg h']
  · rw [if_neg h, findNode_append]
    by_cases h' : e.name = s
    · subst h'
      rw [if_pos rfl]
      rw [show findNode [mkNode e] e.name = some (mkNode e) from
        findNode_singleton_same (mkNode e)]
    · rw [if_neg h']
      rw [findNode_singleton_other (mkNode e) s h']
      cases findNode m s <;> rfl

theorem findNode_insertEndpoint (m : List Node) (t s : String) :
    findNode (insertEndpoint m t) s =
      if t = s then (findNode m s).orElse (fun _ => some (placeholderNode t))
      else findNode m s := by
  unfold insertEndpoint
  by_cases h : hasId m t
  · rw [if_pos h]
    by_cases h' : t = s
    · subst h'
      rw [if_pos (show t = t from rfl)]
      have hs2 : (findNode m t).isSome = true := by
        rw [← hasId_eq_isSome_findNode]; exact h
      cases hf : findNode m t with
      | none => rw [hf] at hs2; simp at hs2
      | some n => rfl
    · rw [if_neg h']
  · rw [if_neg h, findNode_append]
    by_cases h' : t = s
    · subst h'
      rw [if_pos rfl]
      rw [show findNode [placeholderNode t] t = some (placeholderNode t) from
        findNode_singleton_same (placeholderNode t)]
    · rw [if_neg h']
      rw [findNode_singleton_other (placeholderNode t) s h']
      cases findNode m s <;> rfl

theorem findNode_foldl_insertEntity (es : List Entity) (m : List Node)
    (s : String) :
    findNode (es.foldl insertEntity m) s =
      (findNode m s).orElse
        (fun _ => (es.find? (fun e => e.name = s)).map mkNode) := by
  induction es generalizing m with
  | nil =>
    rw [List.foldl_nil, List.find?_nil]
    cases findNode m s <;> rfl
  | cons e es ih =>
    rw [List.foldl_cons, ih, findNode_insertEntity]
    by_cases h' : e.name = s
    · rw [if_pos h']
      rw [List.find?_cons_of_pos _ (by simp [h'])]
      cases findNode m s <;> rfl
    · rw [if_neg h']
      rw [List.find?_cons_of_neg _ (by simp [h'])]

/-- Whether some link in the list references the name `s` as an endpoint. -/
def touches (ls : List Link) (s : String) : Bool :=
  ls.any (fun l => l.source = s || l.target = s)

theorem findNode_insertLinkNodes (m : List Node) (l : Link) (s : String) :
    findNode (insertLinkNodes m l) s =
      if l.source = s ∨ l.target = s then
        (findNode m s).orElse (fun _ => some (placeholderNode s))
      else findNode m s := by
  unfold insertLinkNodes
  rw [findNode_insertEndpoint, findNode_insertEndpoint]
  by_cases hs : l.source = s
  · by_cases ht : l.target = s
    · rw [if_pos (show l.target = s from ht), if_pos (show l.source = s from hs),
        if_pos (show l.source = s ∨ l.target = s from Or.inl hs), hs, ht]
      cases findNode m s <;> rfl
    · rw [if_neg (show ¬l.target = s from ht), if_pos (show l.source = s from hs),
        if_pos (show l.source = s ∨ l.target = s from Or.inl hs), hs]
  · by_cases ht : l.target = s
    · rw [if_pos (show l.target = s from ht), if_neg (show ¬l.source = s from hs),
        if_pos (show l.source = s ∨ l.target = s from Or.inr ht), ht]
    · rw [if_neg (show ¬l.target = s from ht), if_neg (show ¬l.source = s from hs),
        if_neg (show ¬(l.source = s ∨ l.target = s) by push_neg; exact ⟨hs, ht⟩)]

theorem touches_cons (l : Link) (ls : List Link) (s : String) :
    touches (l :: ls) s =
      ((decide (l.source = s) || decide (l.target = s)) || touches ls s) := by
  unfold touches
  rw [List.any_cons]

theorem findNode_foldl_insertLinkNodes (ls : List Link) (m : List Node)
    (s : String) :
    findNode (ls.foldl insertLinkNodes m) s =
      if touches ls s then
        (findNode m s).orElse (fun _ => some (placeholderNode s))
      else findNode m s := by
  induction ls generalizing m with
  | nil =>
    rw [List.foldl_nil,
      if_neg (show ¬touches ([] : List Link) s = true by unfold touches; simp)]
  | cons l ls ih =>
    rw [List.foldl_cons, ih]
    have hstep := findNode_insertLinkNodes m l s
    by_cases hl : l.source = s ∨ l.target = s
    · rw [if_pos hl] at hstep
      rw [hstep]
      have hcons : touches (l :: ls) s = true := by
        rw [touches_cons]
        rcases hl with h | h <;> simp [h]
      rw [if_pos (show touches (l :: ls) s = true from hcons)]
      by_cases h2 : touches ls s
      · rw [if_pos (show touches ls s = true from h2)]
        cases findNode m s <;> rfl
      · rw [if_neg (show ¬touches ls s = true from h2)]
    · rw [if_neg hl] at hstep
      rw [hstep]
      have hcons : touches (l :: ls) s = touches ls s := by
        rw [touches_cons]
        push_neg at hl
        simp [hl.1, hl.2]
      rw [hcons]

/-- Full characterization of the node stored under key `s` in the final
graph: the first entity named `s` if any, otherwise a placeholder if some
link endpoint references `s`, otherwise nothing. -/
theorem findNode_graphData (es : List Entity) (rs : List Relationship)
    (s : String) :
    findNode (graphData es rs).nodes s =
      ((es.find? (fun e => e.name = s)).map mkNode).orElse
        (fun _ => if touches (rs.map mkLink) s then some (placeholderNode s)
                  else none) := by
  show findNode ((rs.map mkLink).foldl insertLinkNodes
      (es.foldl insertEntity [])) s = _
  rw [findNode_foldl_insertLinkNodes, findNode_foldl_insertEntity]
  rw [show findNode [] s = none from rfl]
  by_cases h : touches (rs.map mkLink) s
  · rw [if_pos h, if_pos h]
    cases (es.find? (fun e => e.name = s)).map mkNode <;> rfl
  · rw [if_neg h, if_neg h]
    cases (es.find? (fun e => e.name = s)).map mkNode <;> rfl

/-- No two nodes of the map share an id (the `Map` key uniqueness). -/
def DistinctIds (m : List Node) : Prop :=
  m.Pairwise (fun a b => a.id ≠ b.id)

theorem distinctIds_insertEntity (m : List Node) (e : Entity)
    (h : DistinctIds m) : DistinctIds (insertEntity m e) := by
  unfold insertEntity
  by_cases hh : hasId m e.name
  · rw [if_pos hh]; exact h
  · rw [if_neg hh]
    apply List.pairwise_append.mpr
    refine ⟨h, List.pairwise_singleton _ _, ?_⟩
    intro a ha b hb heq
    simp only [List.mem_singleton] at hb
    subst hb
    exact hh ((hasId_iff m e.name).mpr ⟨a, ha, heq⟩)

theorem distinctIds_insertEndpoint (m : List Node) (s : String)
    (h : DistinctIds m) : DistinctIds (insertEndpoint m s) := by
  unfold insertEndpoint
  by_cases hh : hasId m s
  · rw [if_pos hh]; exact h
  · rw [if_neg hh]
    apply List.pairwise_append.mpr
    refine ⟨h, List.pairwise_singleton _ _, ?_⟩
    intro a ha b hb heq
    simp only [List.mem_singleton] at hb
    subst hb
    exact hh ((hasId_iff m s).mpr ⟨a, ha, heq⟩)

theorem distinctIds_foldl_insertEntity (es : List Entity) (m : List Node)
    (h : DistinctIds m) : DistinctIds (es.foldl insertEntity m) := by
  induction es generalizing m with
  | nil => exact h
  | cons e es ih => exact ih _ (distinctIds_insertEntity m e h)

theorem distinctIds_foldl_insertLinkNodes (ls : List Link) (m : List Node)
    (h : DistinctIds m) : DistinctIds (ls.foldl insertLinkNodes m) := by
  induction ls generalizing m with
  | nil => exact h
  | cons l ls ih =>
    exact ih _ (distinctIds_insertEndpoint _ _
      (distinctIds_insertEndpoint _ _ h))

/-- The node map of the final graph never stores two nodes under the same
id. -/
theorem distinctIds_graphData (es : List Entity) (rs : List Relationship) :
    DistinctIds (graphData es rs).nodes :=
  distinctIds_foldl_insertLinkNodes _ _
    (distinctIds_foldl_insertEntity _ _ List.Pairwise.nil)

theorem mem_insertEntity (m : List Node) (e : Entity) (n : Node)
    (h : n ∈ insertEntity m e) : n ∈ m ∨ n = mkNode e := by
  unfold insertEntity at h
  by_cases hh : hasId m e.name
  · rw [if_pos hh] at h; exact Or.inl h
  · rw [if_neg hh] at h
    rcases List.mem_append.mp h with h | h
    · exact Or.inl h
    · simp only [List.mem_singleton] at h; exact Or.inr h

theorem mem_insertEndpoint (m : List Node) (s : String) (n : Node)
    (h : n ∈ insertEndpoint m s) : n ∈ m ∨ n = placeholderNode s := by
  unfold insertEndpoint at h
  by_cases hh : hasId m s
  · rw [if_pos hh] at h; exact Or.inl h
  · rw [if_neg hh] at h
    rcases List.mem_append.mp h with h | h
    · exact Or.inl h
    · simp only [List.mem_singleton] at h; exact Or.inr h

theorem mem_foldl_insertEntity (es : List Entity) (m : List Node) (n : Node)
    (h : n ∈ es.foldl insertEntity m) : n ∈ m ∨ ∃ e ∈ es, n = mkNode e := by
  induction es generalizing m with
  | nil => exact Or.inl h
  | cons e es ih =>
    rcases ih _ h with h' | ⟨e', he', rfl⟩
    · rcases mem_insertEntity m e n h' with h'' | h''
      · exact Or.inl h''
      · exact Or.inr ⟨e, List.mem_cons_self e es, h''⟩
    · exact Or.inr ⟨e', List.mem_cons_of_mem e he', rfl⟩

theorem mem_foldl_insertLinkNodes (ls : List Link) (m : List Node) (n : Node)
    (h : n ∈ ls.foldl insertLinkNodes m) :
    n ∈ m ∨ ∃ s, n = placeholderNode s := by
  induction ls generalizing m with
  | nil => exact Or.inl h
  | cons l ls ih =>
    rcases ih _ h with h' | h'
    · unfold insertLinkNodes at h'
      rcases mem_insertEndpoint _ _ _ h' with h'' | h''
      · rcases mem_insertEndpoint _ _ _ h'' with h3 | h3
        · exact Or.inl h3
        · exact Or.inr ⟨l.source, h3⟩
      · exact Or.inr ⟨l.target, h''⟩
    · exact Or.inr h'

/-- Provenance: every node of the final graph is either the node of some
input entity or a synthesized placeholder. -/
theorem graphData_nodes_provenance (es : List Entity) (rs : List Relationship)
    (n : Node) (h : n ∈ (graphData es rs).nodes) :
    (∃ e ∈ es, n = mkNode e) ∨ ∃ s, n = placeholderNode s := by
  have h' : n ∈ (rs.map mkLink).foldl insertLinkNodes
      (es.foldl insertEntity []) := h
  rcases mem_foldl_insertLinkNodes _ _ _ h' with h2 | h2
  · rcases mem_foldl_insertEntity _ _ _ h2 with h3 | h3
    · cases h3
    · exact Or.inl h3
  · exact Or.inr h2

/-- Every node's id equals its name, for both entity nodes and
placeholders. -/
theorem graphData_id_eq_name (es : List Entity) (rs : List Relationship)
    (n : Node) (h : n ∈ (graphData es rs).nodes) : n.id = n.name := by
  rcases graphData_nodes_provenance es rs n h with ⟨e, _, rfl⟩ | ⟨s, rfl⟩
  · rfl
  · rfl

theorem hasId_final_of_touches (ls : List Link) (m : List Node) (s : String)
    (h : touches ls s = true) :
    hasId (ls.foldl insertLinkNodes m) s = true := by
  rw [hasId_eq_isSome_findNode, findNode_foldl_insertLinkNodes, if_pos h]
  cases findNode m s <;> rfl

theorem touches_of_mem_source (ls : List Link) (l : Link) (h : l ∈ ls) :
    touches ls l.source = true := by
  unfold touches
  rw [List.any_eq_true]
  exact ⟨l, h, by simp⟩

theorem touches_of_mem_target (ls : List Link) (l : Link) (h : l ∈ ls) :
    touches ls l.target = true := by
  unfold touches
  rw [List.any_eq_true]
  exact ⟨l, h, by simp⟩

/-- Edge closure of the final graph, as a helper: both endpoints of every
link occur among the node ids. -/
theorem graphData_closed (es : List Entity) (rs : List Relationship)
    (l : Link) (h : l ∈ (graphData es rs).links) :
    hasId (graphData es rs).nodes l.source = true ∧
      hasId (graphData es rs).nodes l.target = true := by
  have h' : l ∈ rs.map mkLink := h
  constructor
  · exact hasId_final_of_touches _ _ _ (touches_of_mem_source _ _ h')
  · exact hasId_final_of_touches _ _ _ (touches_of_mem_target _ _ h')

theorem hasId_append (m m' : List Node) (s : String) :
    hasId (m ++ m') s = (hasId m s || hasId m' s) := by
  unfold hasId
  rw [List.any_append]

theorem countP_id_eq_one (m : List Node) (hd : DistinctIds m) (s : String)
    (hmem : hasId m s = true) : m.countP (fun n => n.id = s) = 1 := by
  induction m with
  | nil => simp [hasId] at hmem
  | cons n m ih =>
    have hd' := List.pairwise_cons.mp hd
    by_cases h : n.id = s
    · rw [List.countP_cons]
      have hz : m.countP (fun n => decide (n.id = s)) = 0 := by
        rw [List.countP_eq_zero]
        intro a ha
        simp only [decide_eq_true_eq]
        intro heq
        exact (hd'.1 a ha) (h.trans heq.symm)
      simp [hz, h]
    · rw [List.countP_cons]
      have hmem' : hasId m s = true := by
        rw [hasId_iff] at hmem ⊢
        rcases hmem with ⟨a, ha, haid⟩
        rcases List.mem_cons.mp ha with rfl | ha'
        · exact absurd haid h
        · exact ⟨a, ha', haid⟩
      simp [h, ih hd'.2 hmem']

theorem hasId_graphData_of_mem (es : List Entity) (rs : List Relationship)
    (e : Entity) (he : e ∈ es) :
    hasId (graphData es rs).nodes e.name = true := by
  rw [hasId_eq_isSome_findNode, findNode_graphData]
  have hfind : (es.find? (fun x => x.name = e.name)).isSome := by
    rw [List.find?_isSome]
    exact ⟨e, he, by simp⟩
  cases hf : es.find? (fun x => x.name = e.name) with
  | none => rw [hf] at hfind; simp at hfind
  | some x => rfl

/-- The entity obtained by feeding a produced node back into the component
as an input entity (the `Entity` interface reads the `type`, `name` and
`source` fields of the node object). -/
def nodeToEntity (n : Node) : Entity :=
  { type := n.type, name := n.name, source := n.source }

/-- The relationship obtained by feeding a produced link back in as an
input relationship (`from := link.source`, `to := link.target`). -/
def linkToRel (l : Link) : Relationship :=
  { «from» := l.source, «to» := l.target, type := l.type }

/-- The data fields of a node other than the derived `group` number. -/
def nodeFields (n : Node) : String × String × String × String :=
  (n.id, n.name, n.type, n.source)

theorem foldl_insertEntity_fresh (es : List Entity) (m : List Node)
    (hd : es.Pairwise (fun a b => a.name ≠ b.name))
    (hm : ∀ e ∈ es, hasId m e.name = false) :
    es.foldl insertEntity m = m ++ es.map mkNode := by
  induction es generalizing m with
  | nil => simp
  | cons e es ih =>
    have hd' := List.pairwise_cons.mp hd
    rw [List.foldl_cons]
    have h1 : insertEntity m e = m ++ [mkNode e] := by
      unfold insertEntity
      rw [if_neg (by rw [hm e (List.mem_cons_self e es)]; simp)]
    rw [h1, ih _ hd'.2]
    · rw [List.append_assoc]
      rfl
    · intro e' he'
      rw [hasId_append, hm e' (List.mem_cons_of_mem e he')]
      have : hasId [mkNode e] e'.name = false := by
        unfold hasId
        simp only [List.any_cons, List.any_nil, Bool.or_false]
        simp [mkNode, hd'.1 e' he']
      rw [this]
      rfl

theorem foldl_insertLinkNodes_closed (ls : List Link) (m : List Node)
    (h : ∀ l ∈ ls, hasId m l.source = true ∧ hasId m l.target = true) :
    ls.foldl insertLinkNodes m = m := by
  induction ls with
  | nil => rfl
  | cons l ls ih =>
    have h1 : insertLinkNodes m l = m := by
      unfold insertLinkNodes
      have hsrc : insertEndpoint m l.source = m := by
        unfold insertEndpoint
        rw [if_pos (h l (List.mem_cons_self l ls)).1]
      rw [hsrc]
      unfold insertEndpoint
      rw [if_pos (h l (List.mem_cons_self l ls)).2]
    rw [List.foldl_cons, h1, ih (fun l' hl' => h l' (List.mem_cons_of_mem l hl'))]

theorem graphData_of_produced (N : List Node) (L : List Link)
    (hdist : DistinctIds N) (hid : ∀ n ∈ N, n.id = n.name)
    (hclosed : ∀ l ∈ L, hasId N l.source = true ∧ hasId N l.target = true) :
    (graphData (N.map nodeToEntity) (L.map linkToRel)).links = L ∧
    (graphData (N.map nodeToEntity) (L.map linkToRel)).nodes.map nodeFields =
      N.map nodeFields := by
  have hlinks : (L.map linkToRel).map mkLink = L := by
    rw [List.map_map]
    have hpt : ∀ l ∈ L, (mkLink ∘ linkToRel) l = id l := fun l _ => rfl
    rw [List.map_congr_left hpt, List.map_id]
  have hnames : (N.map nodeToEntity).Pairwise (fun a b => a.name ≠ b.name) := by
    rw [List.pairwise_map]
    exact hdist.imp_of_mem (fun ha hb hr => by
      show ¬_
      intro heq
      exact hr (((hid _ ha).trans heq).trans (hid _ hb).symm))
  have hm0 : (N.map nodeToEntity).foldl insertEntity [] =
      (N.map nodeToEntity).map mkNode := by
    rw [foldl_insertEntity_fresh (N.map nodeToEntity) [] hnames
      (fun e _ => rfl), List.nil_append]
  have hm0ids : ∀ s, hasId ((N.map nodeToEntity).map mkNode) s = hasId N s := by
    intro s
    rw [Bool.eq_iff_iff, hasId_iff, hasId_iff]
    constructor
    · rintro ⟨n', hn', hid'⟩
      rw [List.map_map] at hn'
      rcases List.mem_map.mp hn' with ⟨n, hn, rfl⟩
      exact ⟨n, hn, (hid n hn).trans hid'⟩
    · rintro ⟨n, hn, hid'⟩
      refine ⟨mkNode (nodeToEntity n), ?_, ?_⟩
      · rw [List.map_map]
        exact List.mem_map.mpr ⟨n, hn, rfl⟩
      · show n.name = s
        exact (hid n hn).symm.trans hid'
  constructor
  · show (L.map linkToRel).map mkLink = L
    exact hlinks
  · show (((L.map linkToRel).map mkLink).foldl insertLinkNodes
      ((N.map nodeToEntity).foldl insertEntity [])).map nodeFields = _
    rw [hlinks, hm0]
    rw [foldl_insertLinkNodes_closed _ _ (fun l hl => by
      rw [hm0ids, hm0ids]
      exact hclosed l hl)]
    rw [List.map_map, List.map_map]
    apply List.map_congr_left
    intro n hn
    show (n.name, n.name, n.type, n.source) = (n.id, n.name, n.type, n.source)
    rw [hid n hn]

/-- C1 counterexample: the inputs `{name:"Acme Inc.", source:"A"}` and
`{name:"acme inc", source:"B"}`, whose names differ only in case and a
trailing legal suffix, do NOT merge: `graphData` keys nodes by the exact
name string and produces two distinct nodes, not one. -/
theorem graphData_no_normalization_cex :
    (graphData [⟨"company", "Acme Inc.", "A"⟩, ⟨"company", "acme inc", "B"⟩]
      []).nodes.length = 2 ∧
    ¬(graphData [⟨"company", "Acme Inc.", "A"⟩, ⟨"company", "acme inc", "B"⟩]
      []).nodes.length = 1 := by
  decide

/-- C1 (amended): node identity is decided by exact string equality of the
`name` field, with no normalization; for every input entity the final node
set contains exactly one node whose id is that entity's exact name, and no
two nodes share an id. The node carries only the first entity's source;
sources are not unioned. -/
theorem graphData_exact_name_merge (es : List Entity) (rs : List Relationship) :
    DistinctIds (graphData es rs).nodes ∧
    ∀ e ∈ es, (graphData es rs).nodes.countP (fun n => n.id = e.name) = 1 := by
  refine ⟨distinctIds_graphData es rs, fun e he => ?_⟩
  exact countP_id_eq_one _ (distinctIds_graphData es rs) _
    (hasId_graphData_of_mem es rs e he)

/-- Witness for C1 (amended) at the Acme scenario input. -/
theorem graphData_exact_name_merge_witness :
    (graphData [⟨"company", "Acme Inc.", "A"⟩, ⟨"company", "acme inc", "B"⟩]
      []).nodes.countP (fun n => n.id = "Acme Inc.") = 1 :=
  (graphData_exact_name_merge
    [⟨"company", "Acme Inc.", "A"⟩, ⟨"company", "acme inc", "B"⟩] []).2
    ⟨"company", "Acme Inc.", "A"⟩ (List.mem_cons_self _ _)

/-- C2 counterexample: the same raw relationship `{A→B,"x"}` submitted
twice yields two identical links in the output; the final link list is not
deduplicated on (from, to, type). -/
theorem graphData_duplicate_links_cex :
    ¬List.Pairwise
      (fun a b => ¬(a.source = b.source ∧ a.target = b.target ∧
        a.type = b.type))
      (graphData [] [⟨"A", "B", "x"⟩, ⟨"A", "B", "x"⟩]).links := by
  decide

/-- C2 (amended): the final link list is the input relationship list mapped
one-to-one to links (`source := from`, `target := to`); duplicates are
retained, so submitting the same raw relationship twice yields two edges. -/
theorem graphData_links_eq_map (es : List Entity) (rs : List Relationship) :
    (graphData es rs).links = rs.map mkLink := rfl

/-- C3: edge closure. Every link of the final graph has both endpoints
present among the node ids, and an endpoint name matching no input entity
is stored as a synthesized placeholder node with that name, type "unknown"
and source "unknown". -/
theorem graphData_edge_closure (es : List Entity) (rs : List Relationship)
    (l : Link) (h : l ∈ (graphData es rs).links) :
    (∃ n ∈ (graphData es rs).nodes, n.id = l.source) ∧
    (∃ n ∈ (graphData es rs).nodes, n.id = l.target) ∧
    ((∀ e ∈ es, e.name ≠ l.source) →
      findNode (graphData es rs).nodes l.source =
        some (placeholderNode l.source)) ∧
    ((∀ e ∈ es, e.name ≠ l.target) →
      findNode (graphData es rs).nodes l.target =
        some (placeholderNode l.target)) := by
  have hclosed := graphData_closed es rs l h
  have hmem : l ∈ rs.map mkLink := h
  refine ⟨(hasId_iff _ _).mp hclosed.1, (hasId_iff _ _).mp hclosed.2, ?_, ?_⟩
  · intro hnone
    rw [findNode_graphData]
    rw [List.find?_eq_none.mpr (fun e he => by simp [hnone e he])]
    show (if touches (rs.map mkLink) l.source = true then _ else _) = _
    rw [if_pos (touches_of_mem_source _ _ hmem)]
  · intro hnone
    rw [findNode_graphData]
    rw [List.find?_eq_none.mpr (fun e he => by simp [hnone e he])]
    show (if touches (rs.map mkLink) l.target = true then _ else _) = _
    rw [if_pos (touches_of_mem_target _ _ hmem)]

/-- Witness for C3 at the spec scenario: the relationship
`{from:"Acme Inc.", to:"Jane Doe", type:"officer_of"}` with no matching
"Jane Doe" entity synthesizes the placeholder
`{name:"Jane Doe", type:"unknown", source:"unknown"}`. -/
theorem graphData_edge_closure_witness :
    (∃ n ∈ (graphData [⟨"company", "Acme Inc.", "A"⟩]
      [⟨"Acme Inc.", "Jane Doe", "officer_of"⟩]).nodes,
        n.id = "Acme Inc.") ∧
    (∃ n ∈ (graphData [⟨"company", "Acme Inc.", "A"⟩]
      [⟨"Acme Inc.", "Jane Doe", "officer_of"⟩]).nodes,
        n.id = "Jane Doe") ∧
    ((∀ e ∈ [(⟨"company", "Acme Inc.", "A"⟩ : Entity)],
        e.name ≠ "Jane Doe") →
      findNode (graphData [⟨"company", "Acme Inc.", "A"⟩]
        [⟨"Acme Inc.", "Jane Doe", "officer_of"⟩]).nodes "Jane Doe" =
        some (placeholderNode "Jane Doe")) := by
  have h := graphData_edge_closure [⟨"company", "Acme Inc.", "A"⟩]
    [⟨"Acme Inc.", "Jane Doe", "officer_of"⟩]
    (mkLink ⟨"Acme Inc.", "Jane Doe", "officer_of"⟩)
    (List.mem_singleton.mpr rfl)
  exact ⟨h.1, h.2.1, h.2.2.2⟩

/-- C6: representative selection. The node stored under a name is built
from the first input entity with that exact name in insertion order; later
entities with the same name never overwrite its name, type or source. -/
theorem graphData_first_occurrence_wins (es : List Entity)
    (rs : List Relationship) (s : String) (e : Entity)
    (h : es.find? (fun x => x.name = s) = some e) :
    findNode (graphData es rs).nodes s = some (mkNode e) := by
  rw [findNode_graphData, h]
  rfl

/-- Witness for C6: with two entities both named "Acme", the stored node is
the first one's (type "company", source "A"), not the later one's. -/
theorem graphData_first_occurrence_wins_witness :
    findNode (graphData [⟨"company", "Acme", "A"⟩, ⟨"officer", "Acme", "B"⟩]
      []).nodes "Acme" = some (mkNode ⟨"company", "Acme", "A"⟩) :=
  graphData_first_occurrence_wins
    [⟨"company", "Acme", "A"⟩, ⟨"officer", "Acme", "B"⟩] [] "Acme"
    ⟨"company", "Acme", "A"⟩ (by decide)

/-- C7 counterexample: feeding the produced node list and link list back in
does not reproduce an identical node set: a synthesized placeholder node is
created with group 0, but on the second run its type "unknown" puts it in
group 3. -/
theorem graphData_rerun_cex :
    graphData ((graphData [] [⟨"A", "B", "x"⟩]).nodes.map nodeToEntity)
        ((graphData [] [⟨"A", "B", "x"⟩]).links.map linkToRel) ≠
      graphData [] [⟨"A", "B", "x"⟩] := by
  decide

/-- C7 (amended): re-running `graphData` on its own output (nodes fed back
as entities, links fed back as relationships) reproduces the link list
exactly and the node list up to the derived `group` field (id, name, type
and source are unchanged; only the group of synthesized placeholder nodes
changes from 0 to 3). -/
theorem graphData_rerun_fixed_up_to_group (es : List Entity)
    (rs : List Relationship) :
    (graphData ((graphData es rs).nodes.map nodeToEntity)
        ((graphData es rs).links.map linkToRel)).links =
      (graphData es rs).links ∧
    (graphData ((graphData es rs).nodes.map nodeToEntity)
        ((graphData es rs).links.map linkToRel)).nodes.map nodeFields =
      (graphData es rs).nodes.map nodeFields :=
  graphData_of_produced (graphData es rs).nodes (graphData es rs).links
    (distinctIds_graphData es rs)
    (graphData_id_eq_name es rs)
    (fun l hl => graphData_closed es rs l hl)

/-- The fallback applied to discriminator values in EntityTypeChart
(`entity.type || "unknown"` etc., lines 58, 74, 90): the empty string, the
only falsy string, is replaced by "unknown". -/
def coalesce (s : String) : String :=
  if s = "" then "unknown" else s

/-- One step of a counting loop in EntityTypeChart
(`typeMap.set(type, (typeMap.get(type) || 0) + 1)`): increment the entry of
an existing key in place, or append the key with count 1. -/
def bump (m : List (String × Nat)) (k : String) : List (String × Nat) :=
  if m.any (fun p => p.1 = k) then
    m.map (fun p => if p.1 = k then (p.1, p.2 + 1) else p)
  else m ++ [(k, 1)]

/-- The counting `Map` built by a forEach loop, in insertion order. -/
def tally (ks : List String) : List (String × Nat) :=
  ks.foldl bump []

/-- The `.sort((a, b) => b.value - a.value)` step: JavaScript sort is
stable, so it is the stable merge sort under the "count not below"
comparison. -/
def sortByCountDesc (l : List (String × Nat)) : List (String × Nat) :=
  l.mergeSort (fun a b => decide (b.2 ≤ a.2))

/-- `entityTypeData` of EntityTypeChart (lines 54-68): entity counts by
type, coalesced and sorted by descending count. Entries are (name, value)
pairs. -/
def entityTypeData (entities : List Entity) : List (String × Nat) :=
  sortByCountDesc (tally (entities.map (fun e => coalesce e.type)))

/-- `relationshipTypeData` of EntityTypeChart (lines 70-84): relationship
counts by type. -/
def relationshipTypeData (relationships : List Relationship) :
    List (String × Nat) :=
  sortByCountDesc (tally (relationships.map (fun r => coalesce r.type)))

/-- `sourceData` of EntityTypeChart (lines 86-100): entity counts by
source. -/
def sourceData (entities : List Entity) : List (String × Nat) :=
  sortByCountDesc (tally (entities.map (fun e => coalesce e.source)))

/-- The key order in which a forEach counting loop first encounters each
distinct value. -/
def firstSeen (ks : List String) : List String :=
  ks.foldl (fun acc k => if acc.any (fun x => x = k) then acc else acc ++ [k])
    []

theorem descTrans : ∀ a b c : String × Nat,
    decide (b.2 ≤ a.2) = true → decide (c.2 ≤ b.2) = true →
    decide (c.2 ≤ a.2) = true := by
  intro a b c hab hbc
  simp only [decide_eq_true_eq] at *
  omega

theorem descTotal : ∀ a b : String × Nat,
    (decide (b.2 ≤ a.2) || decide (a.2 ≤ b.2)) = true := by
  intro a b
  rcases Nat.le_total b.2 a.2 with h | h <;> simp [h]

theorem sorted_sortByCountDesc (l : List (String × Nat)) :
    (sortByCountDesc l).Pairwise (fun a b => b.2 ≤ a.2) := by
  have h := List.sorted_mergeSort descTrans descTotal l
  exact h.imp (fun hab => by simpa using hab)

theorem perm_sortByCountDesc (l : List (String × Nat)) :
    List.Perm (sortByCountDesc l) l :=
  List.mergeSort_perm l _

theorem filter_sortByCountDesc (l : List (String × Nat)) (c : Nat) :
    (sortByCountDesc l).filter (fun p => p.2 = c) =
      l.filter (fun p => p.2 = c) := by
  have hall : ∀ p ∈ l.filter (fun p => p.2 = c), p.2 = c := by
    intro p hp
    have := List.of_mem_filter hp
    simpa using this
  have hpw : (l.filter (fun p => p.2 = c)).Pairwise
      (fun a b => decide (b.2 ≤ a.2) = true) := by
    apply List.pairwise_of_forall_mem_list
    intro a ha b hb
    rw [hall a ha, hall b hb]
    simp
  have hsub : List.Sublist (l.filter (fun p => p.2 = c)) (sortByCountDesc l) :=
    List.sublist_mergeSort descTrans descTotal hpw (List.filter_sublist l)
  have hsub2 : List.Sublist (l.filter (fun p => p.2 = c))
      ((sortByCountDesc l).filter (fun p => p.2 = c)) := by
    have := hsub.filter (fun p => decide (p.2 = c))
    rwa [List.filter_eq_self.mpr (fun a ha => by simpa using hall a ha)] at this
  have hperm : List.Perm ((sortByCountDesc l).filter (fun p => p.2 = c))
      (l.filter (fun p => p.2 = c)) :=
    (perm_sortByCountDesc l).filter _
  exact (hsub2.eq_of_length hperm.length_eq.symm).symm

theorem keys_bump (m : List (String × Nat)) (k : String) :
    (bump m k).map Prod.fst =
      if m.any (fun p => p.1 = k) then m.map Prod.fst
      else m.map Prod.fst ++ [k] := by
  unfold bump
  by_cases h : m.any (fun p => p.1 = k)
  · rw [if_pos h, if_pos h, List.map_map]
    apply List.map_congr_left
    intro p _
    by_cases hp : p.1 = k
    · simp [hp]
    · simp [hp]
  · rw [if_neg h, if_neg h, List.map_append]
    rfl

theorem keys_foldl_bump (ks : List String) (m : List (String × Nat)) :
    (ks.foldl bump m).map Prod.fst =
      ks.foldl
        (fun acc k => if acc.any (fun x => x = k) then acc else acc ++ [k])
        (m.map Prod.fst) := by
  induction ks generalizing m with
  | nil => rfl
  | cons k ks ih =>
    rw [List.foldl_cons, List.foldl_cons, ih]
    have hany : (m.map Prod.fst).any (fun x => x = k) =
        m.any (fun p => p.1 = k) := by
      induction m with
      | nil => rfl
      | cons p m ihm => simp [List.any_cons, ihm]
    have hstep : (bump m k).map Prod.fst =
        if (m.map Prod.fst).any (fun x => x = k) then m.map Prod.fst
        else m.map Prod.fst ++ [k] := by
      rw [keys_bump, hany]
    rw [hstep]

/-- The key column of a counting map lists the distinct discriminator
values in first-seen order. -/
theorem keys_tally (ks : List String) :
    (tally ks).map Prod.fst = firstSeen ks :=
  keys_foldl_bump ks []

/-- No two entries of the counting map share a key. -/
def DistinctKeys (m : List (String × Nat)) : Prop :=
  m.Pairwise (fun a b => a.1 ≠ b.1)

theorem distinctKeys_bump (m : List (String × Nat)) (k : String)
    (h : DistinctKeys m) : DistinctKeys (bump m k) := by
  unfold bump
  by_cases hh : m.any (fun p => p.1 = k)
  · rw [if_pos hh]
    unfold DistinctKeys
    rw [List.pairwise_map]
    apply h.imp_of_mem
    intro a b _ _ hab
    have hfa : (if a.1 = k then (a.1, a.2 + 1) else a).1 = a.1 := by
      by_cases hha : a.1 = k <;> simp [hha]
    have hfb : (if b.1 = k then (b.1, b.2 + 1) else b).1 = b.1 := by
      by_cases hhb : b.1 = k <;> simp [hhb]
    show ¬_ = _
    rw [hfa, hfb]
    exact hab
  · rw [if_neg hh]
    apply List.pairwise_append.mpr
    refine ⟨h, List.pairwise_singleton _ _, ?_⟩
    intro a ha b hb
    simp only [List.mem_singleton] at hb
    subst hb
    show a.1 ≠ k
    intro heq
    rw [List.any_eq_true] at hh
    exact hh ⟨a, ha, by simp [heq]⟩

theorem distinctKeys_tally (ks : List String) : DistinctKeys (tally ks) := by
  unfold tally
  have hgen : ∀ m, DistinctKeys m → DistinctKeys (ks.foldl bump m) := by
    induction ks with
    | nil => intro m h; exact h
    | cons k ks ih =>
      intro m h
      exact ih _ (distinctKeys_bump m k h)
  exact hgen [] List.Pairwise.nil

/-- The total of the counts held in a counting map. -/
def sumCounts (l : List (String × Nat)) : Nat :=
  (l.map Prod.snd).sum

theorem sumCounts_cons (p : String × Nat) (m : List (String × Nat)) :
    sumCounts (p :: m) = p.2 + sumCounts m := by
  unfold sumCounts
  rw [List.map_cons, List.sum_cons]

theorem sumCounts_update (m : List (String × Nat)) (k : String)
    (hd : DistinctKeys m) (hmem : m.any (fun p => p.1 = k) = true) :
    sumCounts (m.map (fun p => if p.1 = k then (p.1, p.2 + 1) else p)) =
      sumCounts m + 1 := by
  induction m with
  | nil => simp at hmem
  | cons p m ih =>
    have hd' := List.pairwise_cons.mp hd
    by_cases h : p.1 = k
    · have hrest : m.map (fun q => if q.1 = k then (q.1, q.2 + 1) else q)
          = m := by
        have hpt : ∀ q ∈ m, (if q.1 = k then (q.1, q.2 + 1) else q) = q := by
          intro q hq
          rw [if_neg (fun heq => (hd'.1 q hq) (h.trans heq.symm))]
        rw [List.map_congr_left hpt]
        simp
      rw [List.map_cons, if_pos h, hrest, sumCounts_cons, sumCounts_cons]
      omega
    · rw [List.map_cons, if_neg h]
      have hmem' : m.any (fun q => q.1 = k) = true := by
        rw [List.any_cons] at hmem
        simpa [h] using hmem
      rw [sumCounts_cons, sumCounts_cons, ih hd'.2 hmem']
      omega

theorem sumCounts_bump (m : List (String × Nat)) (k : String)
    (hd : DistinctKeys m) : sumCounts (bump m k) = sumCounts m + 1 := by
  unfold bump
  by_cases h : m.any (fun p => p.1 = k)
  · rw [if_pos h]
    exact sumCounts_update m k hd h
  · rw [if_neg h]
    unfold sumCounts
    rw [List.map_append, List.sum_append]
    rfl

theorem sumCounts_tally (ks : List String) : sumCounts (tally ks) = ks.length := by
  unfold tally
  have hgen : ∀ m, DistinctKeys m →
      sumCounts (ks.foldl bump m) = sumCounts m + ks.length := by
    induction ks with
    | nil => intro m _; rfl
    | cons k ks ih =>
      intro m h
      rw [List.foldl_cons, ih _ (distinctKeys_bump m k h), sumCounts_bump m k h,
        List.length_cons]
      omega
  have := hgen [] List.Pairwise.nil
  rw [this]
  simp [sumCounts]

theorem sumCounts_sortByCountDesc (l : List (String × Nat)) :
    sumCounts (sortByCountDesc l) = sumCounts l := by
  unfold sumCounts
  exact ((perm_sortByCountDesc l).map Prod.snd).sum_eq

/-- The count stored for a key, as `map.get(key)` with a 0 default. -/
def lookupCount (m : List (String × Nat)) (k : String) : Nat :=
  ((m.find? (fun p => p.1 = k)).map Prod.snd).getD 0

theorem find?_map_keyed (f : String × Nat → String × Nat)
    (hf : ∀ p, (f p).1 = p.1) (m : List (String × Nat)) (k : String) :
    (m.map f).find? (fun p => p.1 = k) =
      (m.find? (fun p => p.1 = k)).map f := by
  induction m with
  | nil => rfl
  | cons p m ih =>
    rw [List.map_cons]
    by_cases h : p.1 = k
    · simp [List.find?_cons, hf p, h]
    · simp [List.find?_cons, hf p, h, ih]

theorem lookupCount_bump (m : List (String × Nat)) (k' k : String) :
    lookupCount (bump m k') k =
      lookupCount m k + (if k' = k then 1 else 0) := by
  unfold bump lookupCount
  by_cases h : m.any (fun p => p.1 = k')
  · rw [if_pos h]
    rw [find?_map_keyed _ (fun p => by by_cases hp : p.1 = k' <;> simp [hp])]
    cases hf : m.find? (fun p => p.1 = k) with
    | none =>
      by_cases hk : k' = k
      · subst hk
        rw [List.any_eq_true] at h
        rcases h with ⟨p, hp, hpk⟩
        rw [List.find?_eq_none] at hf
        exact absurd hpk (by simpa using hf p hp)
      · rw [if_neg hk]
        rfl
    | some p =>
      have hpk : p.1 = k := by simpa using List.find?_some hf
      by_cases hk : k' = k
      · subst hk
        rw [if_pos rfl]
        simp [hpk]
      · rw [if_neg hk]
        have : p.1 = k' ↔ False := by
          constructor
          · intro hh
            exact hk (hh.symm.trans hpk)
          · intro hh
            exact hh.elim
        simp [this]
  · rw [if_neg h]
    rw [List.find?_append]
    cases hf : m.find? (fun p => p.1 = k) with
    | none =>
      by_cases hk : k' = k
      · subst hk
        simp [List.find?_cons]
      · simp [List.find?_cons, hk]
    | some p =>
      have hpk : p.1 = k := by simpa using List.find?_some hf
      by_cases hk : k' = k
      · subst hk
        rw [List.any_eq_true] at h
        exact absurd ⟨p, List.mem_of_find?_eq_some hf, by simp [hpk]⟩ h
      · rw [if_neg hk]
        rfl

theorem lookupCount_foldl_bump (ks : List String) (m : List (String × Nat))
    (k : String) :
    lookupCount (ks.foldl bump m) k =
      lookupCount m k + ks.countP (fun x => x = k) := by
  induction ks generalizing m with
  | nil => simp
  | cons k' ks ih =>
    rw [List.foldl_cons, ih, lookupCount_bump, List.countP_cons]
    by_cases hk : k' = k
    · simp [hk]
      omega
    · simp [hk]

theorem lookupCount_tally (ks : List String) (k : String) :
    lookupCount (tally ks) k = ks.countP (fun x => x = k) := by
  have h := lookupCount_foldl_bump ks [] k
  unfold tally
  rw [h]
  simp [lookupCount]

theorem eq_of_mem_distinctKeys {l : List (String × Nat)} (h : DistinctKeys l)
    {p q : String × Nat} (hp : p ∈ l) (hq : q ∈ l) (hk : p.1 = q.1) :
    p = q := by
  induction l with
  | nil => cases hp
  | cons a l ih =>
    have h' := List.pairwise_cons.mp h
    rcases List.mem_cons.mp hp with rfl | hp'
    · rcases List.mem_cons.mp hq with rfl | hq'
      · rfl
      · exact absurd hk (h'.1 q hq')
    · rcases List.mem_cons.mp hq with rfl | hq'
      · exact absurd hk.symm (h'.1 p hp')
      · exact ih h'.2 hp' hq'

theorem lookupCount_perm {l l' : List (String × Nat)} (hd : DistinctKeys l)
    (hperm : List.Perm l l') (k : String) :
    lookupCount l k = lookupCount l' k := by
  unfold lookupCount
  cases hf : l.find? (fun p => p.1 = k) with
  | none =>
    rw [List.find?_eq_none] at hf
    have hnone : l'.find? (fun p => p.1 = k) = none := by
      rw [List.find?_eq_none]
      intro x hx
      exact hf x (hperm.mem_iff.mpr hx)
    rw [hnone]
  | some p =>
    have hpk : p.1 = k := by simpa using List.find?_some hf
    have hpmem : p ∈ l' := hperm.mem_iff.mp (List.mem_of_find?_eq_some hf)
    have hd' : DistinctKeys l' :=
      (hperm.pairwise_iff (fun hxy he => hxy he.symm)).mp hd
    have hsome : (l'.find? (fun p => p.1 = k)).isSome := by
      rw [List.find?_isSome]
      exact ⟨p, hpmem, by simp [hpk]⟩
    cases hf' : l'.find? (fun p => p.1 = k) with
    | none => rw [hf'] at hsome; simp at hsome
    | some q =>
      have hqk : q.1 = k := by simpa using List.find?_some hf'
      have hqmem := List.mem_of_find?_eq_some hf'
      rw [show q = p from
        eq_of_mem_distinctKeys hd' hqmem hpmem (hqk.trans hpk.symm)]

theorem lookupCount_sortByCountDesc (l : List (String × Nat))
    (hd : DistinctKeys l) (k : String) :
    lookupCount (sortByCountDesc l) k = lookupCount l k :=
  (lookupCount_perm hd (perm_sortByCountDesc l).symm k).symm

theorem mem_bump_keys (m : List (String × Nat)) (k : String)
    (p : String × Nat) (h : p ∈ bump m k) :
    (∃ q ∈ m, p.1 = q.1) ∨ p.1 = k := by
  unfold bump at h
  by_cases hh : m.any (fun q => q.1 = k)
  · rw [if_pos hh] at h
    rcases List.mem_map.mp h with ⟨q, hq, rfl⟩
    left
    refine ⟨q, hq, ?_⟩
    by_cases hqk : q.1 = k <;> simp [hqk]
  · rw [if_neg hh] at h
    rcases List.mem_append.mp h with h | h
    · exact Or.inl ⟨p, h, rfl⟩
    · right
      simp only [List.mem_singleton] at h
      rw [h]

theorem mem_tally_keys (ks : List String) (p : String × Nat)
    (h : p ∈ tally ks) : p.1 ∈ ks := by
  unfold tally at h
  have hgen : ∀ m, p ∈ ks.foldl bump m → (∃ q ∈ m, p.1 = q.1) ∨ p.1 ∈ ks := by
    clear h
    induction ks with
    | nil =>
      intro m h
      exact Or.inl ⟨p, h, rfl⟩
    | cons k ks ih =>
      intro m h
      rw [List.foldl_cons] at h
      rcases ih _ h with ⟨q, hq, hpq⟩ | h2
      · rcases mem_bump_keys m k q hq with ⟨r, hr, hqr⟩ | hqk
        · exact Or.inl ⟨r, hr, hpq.trans hqr⟩
        · exact Or.inr (by rw [List.mem_cons]; exact Or.inl (hpq.trans hqk))
      · exact Or.inr (List.mem_cons_of_mem _ h2)
  rcases hgen [] h with ⟨q, hq, _⟩ | h2
  · cases hq
  · exact h2

theorem coalesce_ne_empty (s : String) : coalesce s ≠ "" := by
  unfold coalesce
  by_cases h : s = ""
  · rw [if_pos h]
    decide
  · rw [if_neg h]
    exact h

theorem coalesce_eq_unknown_iff (s : String) :
    coalesce s = "unknown" ↔ (s = "" ∨ s = "unknown") := by
  unfold coalesce
  by_cases h : s = ""
  · rw [if_pos h]
    simp [h]
  · rw [if_neg h]
    simp [h]

theorem grouping_keys_ne_empty (ks : List String) (hks : ∀ x ∈ ks, x ≠ "")
    (p : String × Nat) (hp : p ∈ sortByCountDesc (tally ks)) : p.1 ≠ "" := by
  have hmem : p ∈ tally ks := (perm_sortByCountDesc (tally ks)).mem_iff.mp hp
  exact hks p.1 (mem_tally_keys ks p hmem)

theorem lookup_unknown_grouping (ks : List String) :
    lookupCount (sortByCountDesc (tally ks)) "unknown" =
      ks.countP (fun x => x = "unknown") := by
  rw [lookupCount_sortByCountDesc _ (distinctKeys_tally ks), lookupCount_tally]

/-- C4: aggregator ordering. Each of the three groupings computed by
EntityTypeChart is sorted by descending count; entries with equal counts
keep the order in which their discriminator value was first seen in the
input (the sort is stable over the insertion-ordered counting map, whose
key order is the first-seen order). The computation is a pure function of
the input, hence deterministic. -/
theorem chart_groupings_ordered (es : List Entity) (rs : List Relationship) :
    ((entityTypeData es).Pairwise (fun a b => b.2 ≤ a.2) ∧
      (∀ c, (entityTypeData es).filter (fun p => p.2 = c) =
        (tally (es.map (fun e => coalesce e.type))).filter
          (fun p => p.2 = c)) ∧
      (tally (es.map (fun e => coalesce e.type))).map Prod.fst =
        firstSeen (es.map (fun e => coalesce e.type))) ∧
    ((relationshipTypeData rs).Pairwise (fun a b => b.2 ≤ a.2) ∧
      (∀ c, (relationshipTypeData rs).filter (fun p => p.2 = c) =
        (tally (rs.map (fun r => coalesce r.type))).filter
          (fun p => p.2 = c)) ∧
      (tally (rs.map (fun r => coalesce r.type))).map Prod.fst =
        firstSeen (rs.map (fun r => coalesce r.type))) ∧
    ((sourceData es).Pairwise (fun a b => b.2 ≤ a.2) ∧
      (∀ c, (sourceData es).filter (fun p => p.2 = c) =
        (tally (es.map (fun e => coalesce e.source))).filter
          (fun p => p.2 = c)) ∧
      (tally (es.map (fun e => coalesce e.source))).map Prod.fst =
        firstSeen (es.map (fun e => coalesce e.source))) :=
  ⟨⟨sorted_sortByCountDesc _, fun c => filter_sortByCountDesc _ c,
      keys_tally _⟩,
    ⟨sorted_sortByCountDesc _, fun c => filter_sortByCountDesc _ c,
      keys_tally _⟩,
    ⟨sorted_sortByCountDesc _, fun c => filter_sortByCountDesc _ c,
      keys_tally _⟩⟩

/-- The `summary` object of the analysis artifact. -/
structure Summary where
  total_entities : Nat
  total_relationships : Nat
deriving Repr, DecidableEq

/-- Modelled from the spec: the `summary` member of the output artifact
(spec section 6) is produced by the backend pipeline script
(integrated_analysis.py), which is not among the visible sources; per the
spec, `total_entities` and `total_relationships` are the counts of the
final entity and relationship lists. -/
def summary (entities : List Entity) (relationships : List Relationship) :
    Summary :=
  { total_entities := entities.length,
    total_relationships := relationships.length }

/-- C5: count consistency. Each per-dimension aggregate sums to its total:
the by-entity-type and by-source counts sum to the number of entities, the
by-relationship-type counts sum to the number of relationships, and the
summary totals equal the list lengths. -/
theorem chart_count_consistency (es : List Entity) (rs : List Relationship) :
    sumCounts (entityTypeData es) = es.length ∧
    sumCounts (sourceData es) = es.length ∧
    sumCounts (relationshipTypeData rs) = rs.length ∧
    (summary es rs).total_entities = es.length ∧
    (summary es rs).total_relationships = rs.length := by
  refine ⟨?_, ?_, ?_, rfl, rfl⟩
  · unfold entityTypeData
    rw [sumCounts_sortByCountDesc, sumCounts_tally, List.length_map]
  · unfold sourceData
    rw [sumCounts_sortByCountDesc, sumCounts_tally, List.length_map]
  · unfold relationshipTypeData
    rw [sumCounts_sortByCountDesc, sumCounts_tally, List.length_map]

/-- C8: unknown-bucket coalescing. An empty (the only falsy string) or
"unknown" discriminator is counted under the single "unknown" bucket, and
no grouping ever emits an empty-string key. -/
theorem chart_unknown_bucket (es : List Entity) (rs : List Relationship) :
    (∀ p ∈ entityTypeData es, p.1 ≠ "") ∧
    (∀ p ∈ relationshipTypeData rs, p.1 ≠ "") ∧
    (∀ p ∈ sourceData es, p.1 ≠ "") ∧
    lookupCount (entityTypeData es) "unknown" =
      es.countP (fun e => e.type = "" ∨ e.type = "unknown") ∧
    lookupCount (relationshipTypeData rs) "unknown" =
      rs.countP (fun r => r.type = "" ∨ r.type = "unknown") ∧
    lookupCount (sourceData es) "unknown" =
      es.countP (fun e => e.source = "" ∨ e.source = "unknown") := by
  refine ⟨?_, ?_, ?_, ?_, ?_, ?_⟩
  · intro p hp
    exact grouping_keys_ne_empty _
      (fun x hx => by
        rcases List.mem_map.mp hx with ⟨e, _, rfl⟩
        exact coalesce_ne_empty _) p hp
  · intro p hp
    exact grouping_keys_ne_empty _
      (fun x hx => by
        rcases List.mem_map.mp hx with ⟨r, _, rfl⟩
        exact coalesce_ne_empty _) p hp
  · intro p hp
    exact grouping_keys_ne_empty _
      (fun x hx => by
        rcases List.mem_map.mp hx with ⟨e, _, rfl⟩
        exact coalesce_ne_empty _) p hp
  · show lookupCount (sortByCountDesc (tally _)) "unknown" = _
    rw [lookup_unknown_grouping, List.countP_map]
    apply List.countP_congr
    intro e _
    simpa using coalesce_eq_unknown_iff e.type
  · show lookupCount (sortByCountDesc (tally _)) "unknown" = _
    rw [lookup_unknown_grouping, List.countP_map]
    apply List.countP_congr
    intro r _
    simpa using coalesce_eq_unknown_iff r.type
  · show lookupCount (sortByCountDesc (tally _)) "unknown" = _
    rw [lookup_unknown_grouping, List.countP_map]
    apply List.countP_congr
    intro e _
    simpa using coalesce_eq_unknown_iff e.source

/-- Witness for C8: a single entity whose type is the empty string is
counted under the "unknown" bucket of the by-type grouping. -/
theorem chart_unknown_bucket_witness :
    lookupCount (entityTypeData [⟨"", "X", "A"⟩]) "unknown" = 1 :=
  ((chart_unknown_bucket [⟨"", "X", "A"⟩] []).2.2.2.1).trans (by decide)

/-- A JSON-derived JavaScript value as destructured from the parsed request
body; `undef` is the value of a missing field. Objects and arrays are
collapsed into one always-truthy constructor since the handler only tests
truthiness. -/
inductive JSVal where
  | null
  | undef
  | bool (b : Bool)
  | num (n : Int)
  | str (s : String)
  | objOrArray
deriving Repr, DecidableEq

/-- JavaScript truthiness of a JSON-derived value: null, undefined, false,
0 and "" are falsy; everything else is truthy. -/
def truthy : JSVal → Bool
  | .null => false
  | .undef => false
  | .bool b => b
  | .num n => decide (n ≠ 0)
  | .str s => decide (s ≠ "")
  | .objOrArray => true

/-- The fields destructured from the parsed JSON body in the POST handler
(`const { company, country, website, officer } = body`). -/
structure RequestBody where
  company : JSVal
  country : JSVal
  website : JSVal
  officer : JSVal
deriving Repr, DecidableEq

/-- Outcome of the `execAsync` subprocess call, an external effect passed
in as input: either resolved stdout/stderr or a thrown error (timeout,
nonzero exit), whose message reaches the catch block. -/
inductive ExecResult where
  | ok (stdout stderr : String)
  | err (message : String)
deriving Repr, DecidableEq

/-- Outcome of reading and JSON-parsing the output artifact, an external
effect passed in as input. -/
inductive FileReadResult where
  | ok (content : String)
  | err (message : String)
deriving Repr, DecidableEq

/-- The observable shape of the JSON response produced by the handler:
HTTP status, the `success`/`error`/`data`/`warning` members (absent
members are `none`), and whether the subprocess was invoked at all. -/
structure AnalyzeResponse where
  status : Nat
  success : Option Bool
  error : Option String
  data : Option String
  warning : Option String
  invokedSubprocess : Bool
deriving Repr, DecidableEq

/-- One character of the regex class `[^\s]`. -/
def isNonSpace (c : Char) : Bool := !c.isWhitespace

/-- The capture attempted right after an occurrence of "data/output/": the
greedy `([^\s]+\.json)` group, i.e. the longest prefix of the following
non-whitespace run that ends in ".json" with at least one character before
the suffix. -/
def captureAt (cs : List Char) : Option (List Char) :=
  let run := cs.takeWhile isNonSpace
  ((List.range (run.length + 1)).reverse.find?
      (fun k => decide (6 ≤ k) && ".json".toList.isSuffixOf (run.take k))).map
    (fun k => run.take k)

/-- Leftmost-first matching of the regex
`/data\/output\/([^\s]+\.json)/` over the characters of stdout (line 55 of
route.ts), returning capture group 1. -/
def outputMatchAux : List Char → Option (List Char)
  | [] => none
  | c :: cs =>
    if "data/output/".toList.isPrefixOf (c :: cs) then
      match captureAt ((c :: cs).drop 12) with
      | some g => some g
      | none => outputMatchAux cs
    else outputMatchAux cs

/-- `stdout.match(/data\/output\/([^\s]+\.json)/)`, reduced to the captured
file name. -/
def outputMatch (stdout : String) : Option String :=
  (outputMatchAux stdout.toList).map (fun g => ⟨g⟩)

/-- The POST handler of src/src/app/api/analyze/route.ts, as a function of
the parsed body and the outcomes of its two external effects. Branches:
missing/falsy company or country gives status 400 without running the
subprocess; a thrown subprocess error gives status 500 with
success:false; a found artifact gives success:true with the parsed data,
or success:false (status 200) if reading it fails; no artifact path in
stdout gives success:true with data:null and a warning. -/
def POST (body : RequestBody) (exec : ExecResult)
    (fileRead : FileReadResult) : AnalyzeResponse :=
  if !(truthy body.company && truthy body.country) then
    { status := 400, success := none,
      error := some "企業名と国は必須です", data := none, warning := none,
      invokedSubprocess := false }
  else
    match exec with
    | .err msg =>
      { status := 500, success := some false, error := some msg,
        data := none, warning := none, invokedSubprocess := true }
    | .ok stdout _stderr =>
      match outputMatch stdout with
      | some _ =>
        match fileRead with
        | .ok content =>
          { status := 200, success := some true, error := none,
            data := some content, warning := none,
            invokedSubprocess := true }
        | .err _ =>
          { status := 200, success := some false,
            error := some "結果ファイルの読み込みに失敗しました",
            data := none, warning := none, invokedSubprocess := true }
      | none =>
        { status := 200, success := some true, error := none, data := none,
          warning :=
            some "結果ファイルが見つかりませんでした。出力を確認してください。",
          invokedSubprocess := true }

/-- C9 counterexample: a run whose stdout names no output artifact is
answered with HTTP 200 and success:true (plus a warning and data:null),
not with a terminal failure. -/
theorem analyze_no_artifact_success_cex :
    (POST ⟨.str "Apple", .str "US", .undef, .undef⟩ (.ok "done" "")
        (.err "unused")).success = some true ∧
    (POST ⟨.str "Apple", .str "US", .undef, .undef⟩ (.ok "done" "")
        (.err "unused")).status = 200 ∧
    (POST ⟨.str "Apple", .str "US", .undef, .undef⟩ (.ok "done" "")
        (.err "unused")).data = none := by
  decide

/-- C9 (amended): when the subprocess resolves but its stdout contains no
output-artifact path, the handler returns a successful response (status
200, success:true) with data:null and the warning message, not a terminal
failure. -/
theorem analyze_no_artifact_warning (body : RequestBody)
    (stdout stderr : String) (fileRead : FileReadResult)
    (hc : truthy body.company = true) (hk : truthy body.country = true)
    (hm : outputMatch stdout = none) :
    POST body (.ok stdout stderr) fileRead =
      { status := 200, success := some true, error := none, data := none,
        warning :=
          some "結果ファイルが見つかりませんでした。出力を確認してください。",
        invokedSubprocess := true } := by
  unfold POST
  rw [hc, hk]
  rw [if_neg (by decide)]
  simp only [hm]

/-- Witness for C9 (amended) at a concrete request and stdout. -/
theorem analyze_no_artifact_warning_witness :
    POST ⟨.str "Apple", .str "US", .undef, .undef⟩ (.ok "done" "")
        (.err "unused") =
      { status := 200, success := some true, error := none, data := none,
        warning :=
          some "結果ファイルが見つかりませんでした。出力を確認してください。",
        invokedSubprocess := true } :=
  analyze_no_artifact_warning ⟨.str "Apple", .str "US", .undef, .undef⟩
    "done" "" (.err "unused") (by decide) (by decide) (by decide)

/-- C10: request validation. A missing or falsy company or country field
yields HTTP 400 with the message 企業名と国は必須です and the subprocess is
not invoked; when both are truthy that branch is never taken (the status
is never 400 and the subprocess is invoked). -/
theorem analyze_validation (body : RequestBody) (exec : ExecResult)
    (fileRead : FileReadResult) :
    ((truthy body.company = false ∨ truthy body.country = false) →
      POST body exec fileRead =
        { status := 400, success := none,
          error := some "企業名と国は必須です", data := none,
          warning := none, invokedSubprocess := false }) ∧
    (truthy body.company = true → truthy body.country = true →
      (POST body exec fileRead).status ≠ 400 ∧
      (POST body exec fileRead).invokedSubprocess = true) := by
  constructor
  · intro h
    unfold POST
    have hcond : (!(truthy body.company && truthy body.country)) = true := by
      rcases h with h | h <;> simp [h]
    rw [if_pos hcond]
  · intro hc hk
    unfold POST
    rw [hc, hk]
    rw [if_neg (by decide)]
    cases exec with
    | err msg => exact ⟨by simp, by simp⟩
    | ok stdout stderr =>
      cases hm : outputMatch stdout with
      | some g =>
        cases fileRead with
        | ok content => exact ⟨by simp [hm], by simp [hm]⟩
        | err msg => exact ⟨by simp [hm], by simp [hm]⟩
      | none => exact ⟨by simp [hm], by simp [hm]⟩

/-- Witness for C10 at concrete requests: a blank company gives the 400
response without invoking the subprocess, and a truthy request does not
take the 400 branch. -/
theorem analyze_validation_witness :
    (POST ⟨.str "", .str "US", .undef, .undef⟩ (.ok "done" "") (.err "e") =
      { status := 400, success := none, error := some "企業名と国は必須です",
        data := none, warning := none, invokedSubprocess := false }) ∧
    (POST ⟨.str "Apple", .str "US", .undef, .undef⟩ (.ok "done" "")
        (.err "e")).status ≠ 400 :=
  ⟨(analyze_validation ⟨.str "", .str "US", .undef, .undef⟩ (.ok "done" "")
      (.err "e")).1 (Or.inl (by decide)),
    ((analyze_validation ⟨.str "Apple", .str "US", .undef, .undef⟩
      (.ok "done" "") (.err "e")).2 (by decide) (by decide)).1⟩
